import Mathlib

/-!
# Steel Mill Slab Design — verification of the spec against the source

Shallow embedding of `src/steel_mill_slab_design_problem.py`.

Modelling conventions:
* Python integers are modelled as `Int` (quantities, colors, slab sizes, costs).
  The source accumulates penalties as Python floats (`1e6 * k`); every value that
  actually arises is an integer that a float represents exactly in the ranges
  the claims are about, so costs are modelled as exact `Int`s.
* The waste table is a `List Int`; the Python statement
  `waste_for_content[content] = size - content` raises `IndexError` when
  `content` is at or beyond the length of the list, so the builder returns
  `Except BuildError (List Int)`; `sys.exit(1)` on an unsorted input is the
  `BuildError.notSorted` outcome.
* `range(prev_size + 1, size)` is encoded by a start index `(prev_size + 1).toNat`
  and an iteration count `(size - prev_size - 1).toNat`; on every reachable state
  `prev_size ≥ 0` (it starts at `0` and is only ever set to a size that passed the
  `size < prev_size` check), so the encoding iterates exactly the same contents.
* Candidates are `List (List Nat)` (each slab a list of order indices);
  `quantities_data[i]` / `colors_data[i]` are modelled with `List.getD` (all the
  claims concern indices in range `0 .. nb_orders - 1`).
* The coverage test `set(orders_in_candidate) != set(range(self.nb_orders))`
  compares *sets*, i.e. mutual membership; `coverageOk` below is exactly that.
-/

set_option maxRecDepth 4096

/-- Failure modes of `pre_compute_waste_for_content`: the source calls
`sys.exit(1)` when the sizes are not ascending, and a write
`waste_for_content[content] = ...` out of range raises `IndexError`. -/
inductive BuildError where
  | notSorted
  | indexError
deriving DecidableEq, Repr

instance {ε α : Type} [DecidableEq ε] [DecidableEq α] : DecidableEq (Except ε α) := fun x y =>
  match x, y with
  | .ok a, .ok b =>
    if h : a = b then isTrue (by rw [h]) else isFalse (by intro hc; cases hc; exact h rfl)
  | .ok _, .error _ => isFalse (by intro hc; cases hc)
  | .error _, .ok _ => isFalse (by intro hc; cases hc)
  | .error e, .error f =>
    if h : e = f then isTrue (by rw [h]) else isFalse (by intro hc; cases hc; exact h rfl)

/-- The inner loop `for content in range(prev_size + 1, size):
waste_for_content[content] = size - content` of the source, with `content`
starting at the given index and `fuel` iterations remaining.  A write at an
index `≥` the list length is Python's `IndexError`. -/
def setEntries (size : Int) : List Int → Nat → Nat → Except BuildError (List Int)
  | t, _, 0 => Except.ok t
  | t, content, fuel + 1 =>
    if content < t.length then
      setEntries size (t.set content (size - (content : Int))) (content + 1) fuel
    else
      Except.error BuildError.indexError

/-- The outer loop `for size in slab_sizes:` of `pre_compute_waste_for_content`:
check the ascending-order condition, fill the gap `(prev_size, size)`, advance
`prev_size`. -/
def wasteLoop : List Int → Int → List Int → Except BuildError (List Int)
  | [], _, t => Except.ok t
  | size :: rest, prev_size, t =>
    if size < prev_size then
      Except.error BuildError.notSorted
    else
      match setEntries size t (prev_size + 1).toNat (size - prev_size - 1).toNat with
      | Except.error e => Except.error e
      | Except.ok t2 => wasteLoop rest size t2

/-- `pre_compute_waste_for_content(slab_sizes, sum_size_orders)` of the source:
start from `[0] * (sum_size_orders + 1)` and run the loop with `prev_size = 0`. -/
def pre_compute_waste_for_content (slab_sizes : List Int) (sum_size_orders : Nat) :
    Except BuildError (List Int) :=
  wasteLoop slab_sizes 0 (List.replicate (sum_size_orders + 1) 0)

/-- The instance state of `SteelMillSlabDesignProblem` after `__init__`:
the fields read from the instance file plus the precomputed waste table. -/
structure SteelMillSlabDesignProblem where
  slab_sizes : List Int
  max_size : Int
  nb_orders : Nat
  quantities_data : List Int
  colors_data : List Int
  sum_size_orders : Int
  waste_for_content : List Int
  nb_colors_max_slab : Nat

/-- `1e6` of the source, the flat penalty unit. -/
def PENALTY_UNIT : Int := 1000000

/-- `{self.colors_data[i] for i in slab}` of the source: the distinct colors of a
slab (`dedup` keeps one copy of each, so its length is the set's cardinality). -/
def slabColors (st : SteelMillSlabDesignProblem) (slab : List Nat) : List Int :=
  (slab.map (fun i => st.colors_data.getD i 0)).dedup

/-- `content = sum(self.quantities_data[i] for i in slab)` of the source. -/
def slabContent (st : SteelMillSlabDesignProblem) (slab : List Nat) : Int :=
  (slab.map (fun i => st.quantities_data.getD i 0)).sum

/-- The color-constraint penalty of one slab (source lines 121–123):
`1e6 * (len(slab_colors) - self.nb_colors_max_slab)` when the count exceeds the
limit, else nothing. -/
def slabColorPenalty (st : SteelMillSlabDesignProblem) (slab : List Nat) : Int :=
  if st.nb_colors_max_slab < (slabColors st slab).length then
    PENALTY_UNIT * (((slabColors st slab).length : Int) - (st.nb_colors_max_slab : Int))
  else 0

/-- The capacity penalty of one slab (source lines 126–127):
`1e6 * (content - self.max_size)` when `content > max_size`, else nothing. -/
def slabOverflowPenalty (st : SteelMillSlabDesignProblem) (slab : List Nat) : Int :=
  if st.max_size < slabContent st slab then
    PENALTY_UNIT * (slabContent st slab - st.max_size)
  else 0

/-- The waste of one slab (source lines 130–133): the table entry when
`content < len(waste_for_content)`, otherwise the fallback `max_size - content`
(which is negative when the content overflows). -/
def slabWaste (st : SteelMillSlabDesignProblem) (slab : List Nat) : Int :=
  if slabContent st slab < (st.waste_for_content.length : Int) then
    st.waste_for_content.getD (slabContent st slab).toNat 0
  else
    st.max_size - slabContent st slab

/-- The coverage test of source line 137,
`set(orders_in_candidate) != set(range(self.nb_orders))`, stated positively:
the two index sets are equal iff each is included in the other.
`orders_in_candidate` is the concatenation of all slabs (empty ones included). -/
def coverageOk (st : SteelMillSlabDesignProblem) (candidate : List (List Nat)) : Bool :=
  ((List.range st.nb_orders).all (fun i => decide (i ∈ candidate.flatten))) &&
  (candidate.flatten.all (fun i => decide (i < st.nb_orders)))

/-- `evaluate_solution` of the source: per-slab waste and penalties are summed
over the slabs (empty slabs are skipped by `continue`), the coverage check adds
a flat `1e6` when it fails, and the result is `used_slab_waste + penalty`. -/
def evaluate_solution (st : SteelMillSlabDesignProblem) (candidate : List (List Nat)) : Int :=
  (candidate.map (fun slab => if slab = [] then 0 else slabWaste st slab)).sum +
  ((candidate.map (fun slab =>
      if slab = [] then 0 else slabColorPenalty st slab + slabOverflowPenalty st slab)).sum +
   (if coverageOk st candidate then 0 else PENALTY_UNIT))

/-- The instance of the spec's concrete scenario (claim C1): one slab size 100,
two orders (quantity 60, color 1) and (quantity 50, color 1); all fields are as
`__init__` computes them, with the waste table taken from the builder. -/
def st_C1 : SteelMillSlabDesignProblem :=
  { slab_sizes := [100]
    max_size := 100
    nb_orders := 2
    quantities_data := [60, 50]
    colors_data := [1, 1]
    sum_size_orders := 110
    waste_for_content := (pre_compute_waste_for_content [100] 110).toOption.getD []
    nb_colors_max_slab := 2 }

/-- The `st_C1` table really is the builder's (successful) output. -/
theorem st_C1_table_ok :
    pre_compute_waste_for_content [100] 110 = Except.ok st_C1.waste_for_content := rfl

/-- A small instance used for duplicated-order and feasible-candidate scenarios:
slab sizes `[5, 11]`, orders (quantity 6, color 1) and (quantity 5, color 1). -/
def st_C2 : SteelMillSlabDesignProblem :=
  { slab_sizes := [5, 11]
    max_size := 11
    nb_orders := 2
    quantities_data := [6, 5]
    colors_data := [1, 1]
    sum_size_orders := 11
    waste_for_content := (pre_compute_waste_for_content [5, 11] 11).toOption.getD []
    nb_colors_max_slab := 2 }

/-- The `st_C2` table really is the builder's (successful) output. -/
theorem st_C2_table_ok :
    pre_compute_waste_for_content [5, 11] 11 = Except.ok st_C2.waste_for_content := rfl

/-- An instance with three differently colored orders: slab sizes `[10]`,
orders (4, color 1), (3, color 2), (2, color 3). -/
def st_C6 : SteelMillSlabDesignProblem :=
  { slab_sizes := [10]
    max_size := 10
    nb_orders := 3
    quantities_data := [4, 3, 2]
    colors_data := [1, 2, 3]
    sum_size_orders := 9
    waste_for_content := (pre_compute_waste_for_content [10] 9).toOption.getD []
    nb_colors_max_slab := 2 }

/-- The `st_C6` table really is the builder's (successful) output. -/
theorem st_C6_table_ok :
    pre_compute_waste_for_content [10] 9 = Except.ok st_C6.waste_for_content := rfl

/-- When the whole write window fits in the list, `setEntries` succeeds and
rewrites exactly the window `[start, start + fuel)` to `size - c`, leaving every
other entry unchanged. -/
theorem setEntries_char (fuel : Nat) :
    ∀ (start : Nat) (t : List Int) (size : Int),
      fuel = 0 ∨ start + fuel ≤ t.length →
      ∃ r, setEntries size t start fuel = Except.ok r ∧ r.length = t.length ∧
        ∀ c : Nat, r.getD c 0 =
          if start ≤ c ∧ c < start + fuel then size - (c : Int) else t.getD c 0 := by
  induction fuel with
  | zero =>
    intro start t size _
    refine ⟨t, rfl, rfl, fun c => ?_⟩
    rw [if_neg]
    omega
  | succ fuel ih =>
    intro start t size h
    have hstart : start < t.length := by omega
    obtain ⟨r, hok, hlen, hchar⟩ :=
      ih (start + 1) (t.set start (size - (start : Int))) size
        (Or.inr (by rw [List.length_set]; omega))
    refine ⟨r, ?_, by rw [hlen, List.length_set], fun c => ?_⟩
    · simp only [setEntries]
      rw [if_pos hstart]
      exact hok
    · rw [hchar c]
      by_cases h1 : start + 1 ≤ c ∧ c < start + 1 + fuel
      · rw [if_pos h1, if_pos (by omega)]
      · rw [if_neg h1]
        by_cases h2 : c = start
        · subst h2
          rw [if_pos (by omega)]
          simp [List.getD_eq_getElem?_getD, List.getElem?_set_self hstart]
        · rw [if_neg (by omega)]
          simp [List.getD_eq_getElem?_getD, List.getElem?_set_ne (fun hh => h2 hh.symm)]

/-- Transitivity step for ascending chains: everything in a `≤`-chain after `a`
is `≥ a`. -/
theorem chain_le_mem {a b : Int} {l : List Int} (h : List.Chain (· ≤ ·) a l) (hb : b ∈ l) :
    a ≤ b := by
  induction l generalizing a with
  | nil => cases hb
  | cons x xs ih =>
    cases h with
    | cons hax hx =>
      rcases List.mem_cons.mp hb with rfl | hb2
      · exact hax
      · exact le_trans hax (ih hx hb2)

/-- If the builder loop returns a table, the sizes it consumed were ascending
from `prev`: the `size < prev_size` check passed at every step. -/
theorem wasteLoop_ok_chain :
    ∀ (sizes : List Int) (prev : Int) (t r : List Int),
      wasteLoop sizes prev t = Except.ok r → List.Chain (· ≤ ·) prev sizes := by
  intro sizes
  induction sizes with
  | nil =>
    intro prev t r _
    exact List.Chain.nil
  | cons size rest ih =>
    intro prev t r h
    simp only [wasteLoop] at h
    by_cases hlt : size < prev
    · rw [if_pos hlt] at h
      cases h
    · rw [if_neg hlt] at h
      cases hse : setEntries size t (prev + 1).toNat (size - prev - 1).toNat with
      | error e =>
        rw [hse] at h
        cases h
      | ok t2 =>
        rw [hse] at h
        exact List.Chain.cons (not_lt.mp hlt) (ih size t2 r h)

/-- The builder loop over an appended list runs the first part, then the second
part starting from the last size of the first part. -/
theorem wasteLoop_append (l : List Int) :
    ∀ (m : List Int) (prev : Int) (t : List Int),
      wasteLoop (l ++ m) prev t =
        match wasteLoop l prev t with
        | Except.error e => Except.error e
        | Except.ok t2 => wasteLoop m (l.getLastD prev) t2 := by
  induction l with
  | nil =>
    intro m prev t
    simp [wasteLoop, List.getLastD]
  | cons size rest ih =>
    intro m prev t
    simp only [List.cons_append, wasteLoop]
    by_cases hlt : size < prev
    · rw [if_pos hlt, if_pos hlt]
    · rw [if_neg hlt, if_neg hlt]
      cases hse : setEntries size t (prev + 1).toNat (size - prev - 1).toNat with
      | error e => rfl
      | ok t2 =>
        show wasteLoop (rest ++ m) size t2 =
          match wasteLoop rest size t2 with
          | Except.error e => Except.error e
          | Except.ok t3 => wasteLoop m ((size :: rest).getLastD prev) t3
        rw [ih m size t2, List.getLastD_cons]

/-- A duplicated adjacent size is a no-op for the builder loop: its ascending
check passes (`a < a` is false) and its write window `range(a + 1, a)` is empty. -/
theorem wasteLoop_dup (a : Int) (r : List Int) (prev : Int) (t : List Int) :
    wasteLoop (a :: a :: r) prev t = wasteLoop (a :: r) prev t := by
  simp only [wasteLoop]
  by_cases hlt : a < prev
  · rw [if_pos hlt, if_pos hlt]
  · rw [if_neg hlt, if_neg hlt]
    cases hse : setEntries a t (prev + 1).toNat (a - prev - 1).toNat with
    | error e => rfl
    | ok t2 =>
      show wasteLoop (a :: r) a t2 = wasteLoop r a t2
      simp only [wasteLoop]
      rw [if_neg (lt_irrefl a)]
      have hfuel : (a - a - 1).toNat = 0 := by omega
      rw [hfuel]
      rfl

/-- `pre_compute_waste_for_content` gives the identical outcome (table or error)
whether or not an adjacent duplicate size is present. -/
theorem pre_compute_dup (l r : List Int) (a : Int) (ub : Nat) :
    pre_compute_waste_for_content (l ++ a :: a :: r) ub =
      pre_compute_waste_for_content (l ++ a :: r) ub := by
  unfold pre_compute_waste_for_content
  rw [wasteLoop_append, wasteLoop_append]
  cases wasteLoop l 0 (List.replicate (ub + 1) 0) with
  | error e => rfl
  | ok t2 => exact wasteLoop_dup a r _ t2

/-- Full characterization of a successful builder-loop run: when the sizes are
ascending from a non-negative `prev` and every size is at most the table length,
the run succeeds, preserves the length, and entry `c` becomes `s - c` for `s`
the first size strictly greater than `c` — provided `c` lies strictly after
`prev` and is not itself a size — and is left untouched otherwise. -/
theorem wasteLoop_char :
    ∀ (sizes : List Int) (prev : Int) (t : List Int),
      List.Chain (· ≤ ·) prev sizes → 0 ≤ prev →
      (∀ s ∈ sizes, s ≤ (t.length : Int)) →
      ∃ r, wasteLoop sizes prev t = Except.ok r ∧ r.length = t.length ∧
        ∀ c : Nat, r.getD c 0 =
          match sizes.find? (fun s => decide ((c : Int) < s)) with
          | some s =>
            if prev < (c : Int) ∧ ¬ (c : Int) ∈ sizes then s - (c : Int) else t.getD c 0
          | none => t.getD c 0 := by
  intro sizes
  induction sizes with
  | nil =>
    intro prev t _ _ _
    exact ⟨t, rfl, rfl, fun c => by simp⟩
  | cons size rest ih =>
    intro prev t hchain hprev hbound
    cases hchain with
    | cons hps hrest =>
    have hsize_le : size ≤ (t.length : Int) := hbound size (List.mem_cons_self _ _)
    have hwindow : (size - prev - 1).toNat = 0 ∨
        (prev + 1).toNat + (size - prev - 1).toNat ≤ t.length := by omega
    obtain ⟨t2, hse, hlen2, hchar2⟩ := setEntries_char _ _ t size hwindow
    obtain ⟨r, hwl, hlenr, hcharr⟩ :=
      ih size t2 hrest (le_trans hprev hps)
        (fun s hs => by rw [hlen2]; exact hbound s (List.mem_cons_of_mem _ hs))
    refine ⟨r, ?_, by rw [hlenr, hlen2], fun c => ?_⟩
    · simp only [wasteLoop]
      rw [if_neg (not_lt.mpr hps), hse]
      exact hwl
    · have hwin : t2.getD c 0 =
          if prev < (c : Int) ∧ (c : Int) < size then size - (c : Int) else t.getD c 0 := by
        rw [hchar2 c]
        by_cases hw : prev < (c : Int) ∧ (c : Int) < size
        · have hwN : (prev + 1).toNat ≤ c ∧ c < (prev + 1).toNat + (size - prev - 1).toNat := by
            omega
          rw [if_pos hwN, if_pos hw]
        · have hwN : ¬ ((prev + 1).toNat ≤ c ∧ c < (prev + 1).toNat + (size - prev - 1).toNat) := by
            omega
          rw [if_neg hwN, if_neg hw]
      rw [hcharr c]
      by_cases hcs : (c : Int) < size
      · rw [List.find?_cons_of_pos _ (by simpa using hcs)]
        have hcrest : ¬ (c : Int) ∈ rest :=
          fun hmem => absurd (chain_le_mem hrest hmem) (by omega)
        have hnm : ¬ (c : Int) ∈ size :: rest := by
          rw [List.mem_cons]
          push_neg
          exact ⟨by omega, hcrest⟩
        cases hrf : rest.find? (fun s => decide ((c : Int) < s)) with
        | none =>
          dsimp only
          rw [hwin]
          by_cases hpc : prev < (c : Int)
          · have hP1 : prev < (c : Int) ∧ (c : Int) < size := ⟨hpc, hcs⟩
            have hP2 : prev < (c : Int) ∧ ¬ (c : Int) ∈ size :: rest := ⟨hpc, hnm⟩
            rw [if_pos hP1, if_pos hP2]
          · have hN1 : ¬ (prev < (c : Int) ∧ (c : Int) < size) := fun hh => hpc hh.1
            have hN2 : ¬ (prev < (c : Int) ∧ ¬ (c : Int) ∈ size :: rest) := fun hh => hpc hh.1
            rw [if_neg hN1, if_neg hN2]
        | some s =>
          dsimp only
          have hA : ¬ (size < (c : Int) ∧ ¬ (c : Int) ∈ rest) := fun hh => absurd hh.1 (by omega)
          rw [if_neg hA, hwin]
          by_cases hpc : prev < (c : Int)
          · have hP1 : prev < (c : Int) ∧ (c : Int) < size := ⟨hpc, hcs⟩
            have hP2 : prev < (c : Int) ∧ ¬ (c : Int) ∈ size :: rest := ⟨hpc, hnm⟩
            rw [if_pos hP1, if_pos hP2]
          · have hN1 : ¬ (prev < (c : Int) ∧ (c : Int) < size) := fun hh => hpc hh.1
            have hN2 : ¬ (prev < (c : Int) ∧ ¬ (c : Int) ∈ size :: rest) := fun hh => hpc hh.1
            rw [if_neg hN1, if_neg hN2]
      · rw [List.find?_cons_of_neg _ (by simpa using hcs)]
        by_cases hceq : (c : Int) = size
        · have hmem : (c : Int) ∈ size :: rest := by
            rw [hceq]
            exact List.mem_cons_self _ _
          cases hrf : rest.find? (fun s => decide ((c : Int) < s)) with
          | none =>
            dsimp only
            have hC : ¬ (prev < (c : Int) ∧ (c : Int) < size) := fun hh => absurd hh.2 (by omega)
            rw [hwin, if_neg hC]
          | some s =>
            dsimp only
            have hA : ¬ (size < (c : Int) ∧ ¬ (c : Int) ∈ rest) := fun hh => absurd hh.1 (by omega)
            have hB : ¬ (prev < (c : Int) ∧ ¬ (c : Int) ∈ size :: rest) := fun hh => hh.2 hmem
            have hC : ¬ (prev < (c : Int) ∧ (c : Int) < size) := fun hh => absurd hh.2 (by omega)
            rw [if_neg hA, hwin, if_neg hC, if_neg hB]
        · have hgt : size < (c : Int) := by omega
          have hpc : prev < (c : Int) := by omega
          have hwin2 : t2.getD c 0 = t.getD c 0 := by
            have hC : ¬ (prev < (c : Int) ∧ (c : Int) < size) := fun hh => absurd hh.2 (by omega)
            rw [hwin, if_neg hC]
          cases hrf : rest.find? (fun s => decide ((c : Int) < s)) with
          | none =>
            dsimp only
            exact hwin2
          | some s =>
            dsimp only
            by_cases hcr : (c : Int) ∈ rest
            · have hA : ¬ (size < (c : Int) ∧ ¬ (c : Int) ∈ rest) := fun hh => hh.2 hcr
              have hB : ¬ (prev < (c : Int) ∧ ¬ (c : Int) ∈ size :: rest) :=
                fun hh => hh.2 (List.mem_cons_of_mem _ hcr)
              rw [if_neg hA, if_neg hB]
              exact hwin2
            · have hnm2 : ¬ (c : Int) ∈ size :: rest := by
                rw [List.mem_cons]
                push_neg
                exact ⟨by omega, hcr⟩
              have hP1 : size < (c : Int) ∧ ¬ (c : Int) ∈ rest := ⟨hgt, hcr⟩
              have hP2 : prev < (c : Int) ∧ ¬ (c : Int) ∈ size :: rest := ⟨hpc, hnm2⟩
              rw [if_pos hP1, if_pos hP2]

/-- Every entry of the all-zero initial table reads as `0` (in or out of range). -/
theorem getD_replicate_zero (n c : Nat) : (List.replicate n (0 : Int)).getD c 0 = 0 := by
  rw [List.getD_eq_getElem?_getD, List.getElem?_replicate]
  split <;> rfl

/-- A non-strictly ascending list of positive sizes is an ascending chain from 0,
which is how the builder starts its loop. -/
theorem chain_zero_of_pos (sizes : List Int) (hsort : List.Chain' (· ≤ ·) sizes)
    (hpos : ∀ s ∈ sizes, 0 < s) : List.Chain (· ≤ ·) 0 sizes := by
  cases sizes with
  | nil => exact List.Chain.nil
  | cons x xs => exact List.Chain.cons (le_of_lt (hpos x (List.mem_cons_self _ _))) hsort

/-- On an ascending list, `find?` for "strictly above `c`" returns a minimum
among the elements strictly above `c`. -/
theorem sorted_find_min :
    ∀ (l : List Int), List.Chain' (· ≤ ·) l → ∀ (c x : Int),
      l.find? (fun s => decide (c < s)) = some x → ∀ y ∈ l, c < y → x ≤ y := by
  intro l
  induction l with
  | nil =>
    intro _ c x h
    simp at h
  | cons a l ih =>
    intro hsort c x h y hy hcy
    by_cases hca : c < a
    · rw [List.find?_cons_of_pos _ (by simpa using hca)] at h
      injection h with h
      subst h
      rcases List.mem_cons.mp hy with rfl | hy2
      · exact le_refl _
      · exact chain_le_mem hsort hy2
    · rw [List.find?_cons_of_neg _ (by simpa using hca)] at h
      rcases List.mem_cons.mp hy with rfl | hy2
      · exact absurd hcy hca
      · exact ih hsort.tail c x h y hy2 hcy

/-- Claim C3 is false as stated: for the ascending positive size list `[5]` and
upper bound `2`, the source does not build a table of length `3` — the write
loop `for content in range(1, 5)` runs past the end of `[0] * 3` and raises
`IndexError` at `content = 3`. -/
theorem claim_C3_false :
    pre_compute_waste_for_content [5] 2 = Except.error BuildError.indexError := by decide

/-- Claim C3 (amended): for every non-strictly ascending list of positive slab
sizes *each at most `upper_bound + 1`* (so every write lands inside the table)
and non-negative upper bound, the builder succeeds with a table of length
`upper_bound + 1` whose entry `c` is `0` when `c = 0`, when `c` equals some
slab size, or when `c` is greater than every slab size, and otherwise equals
`(smallest slab size ≥ c) − c`. -/
theorem claim_C3_amended (sizes : List Int) (ub : Nat)
    (hsort : List.Chain' (· ≤ ·) sizes)
    (hpos : ∀ s ∈ sizes, 0 < s)
    (hbound : ∀ s ∈ sizes, s ≤ (ub : Int) + 1) :
    ∃ t, pre_compute_waste_for_content sizes ub = Except.ok t ∧
      t.length = ub + 1 ∧
      ∀ c : Nat, c ≤ ub →
        ((c = 0 → t.getD c 0 = 0) ∧
         ((c : Int) ∈ sizes → t.getD c 0 = 0) ∧
         ((∀ s ∈ sizes, s < (c : Int)) → t.getD c 0 = 0) ∧
         (c ≠ 0 → ¬ (c : Int) ∈ sizes → ∀ s ∈ sizes, (c : Int) ≤ s →
           ∃ s₀, s₀ ∈ sizes ∧ (c : Int) ≤ s₀ ∧
             (∀ s2 ∈ sizes, (c : Int) ≤ s2 → s₀ ≤ s2) ∧
             t.getD c 0 = s₀ - (c : Int))) := by
  have hchain := chain_zero_of_pos sizes hsort hpos
  obtain ⟨r, hok, hlen, hchar⟩ :=
    wasteLoop_char sizes 0 (List.replicate (ub + 1) 0) hchain (le_refl 0)
      (fun s hs => by rw [List.length_replicate]; have h1 := hbound s hs; omega)
  refine ⟨r, hok, by rw [hlen, List.length_replicate], fun c _ => ?_⟩
  have hch := hchar c
  have hc0 : (List.replicate (ub + 1) (0 : Int)).getD c 0 = 0 := getD_replicate_zero _ _
  have huntouched : ¬ (0 < (c : Int) ∧ ¬ (c : Int) ∈ sizes) → r.getD c 0 = 0 := by
    intro hcnd
    rw [hch]
    cases hf : sizes.find? (fun s => decide ((c : Int) < s)) with
    | none =>
      dsimp only
      exact hc0
    | some s =>
      dsimp only
      rw [if_neg hcnd]
      exact hc0
  refine ⟨?_, ?_, ?_, ?_⟩
  · intro hceq
    exact huntouched (fun hh => by omega)
  · intro hmem
    exact huntouched (fun hh => hh.2 hmem)
  · intro hall
    have hnone : sizes.find? (fun s => decide ((c : Int) < s)) = none := by
      rw [List.find?_eq_none]
      intro x hx
      simp only [decide_eq_true_eq]
      have := hall x hx
      omega
    rw [hch, hnone]
    exact hc0
  · intro hne hnotmem s hs hcs
    have hlt : (c : Int) < s := lt_of_le_of_ne hcs (fun he => hnotmem (he ▸ hs))
    cases hf : sizes.find? (fun s => decide ((c : Int) < s)) with
    | none =>
      have := List.find?_eq_none.mp hf s hs
      simp only [decide_eq_true_eq] at this
      exact absurd hlt this
    | some s₀ =>
      have hs₀mem : s₀ ∈ sizes := List.mem_of_find?_eq_some hf
      have hs₀pred : (c : Int) < s₀ := by
        have := List.find?_some hf
        simpa using this
      have hmin : ∀ s2 ∈ sizes, (c : Int) ≤ s2 → s₀ ≤ s2 := by
        intro s2 hs2 hcs2
        have hlt2 : (c : Int) < s2 := lt_of_le_of_ne hcs2 (fun he => hnotmem (he ▸ hs2))
        exact sorted_find_min sizes hsort c s₀ hf s2 hs2 hlt2
      refine ⟨s₀, hs₀mem, le_of_lt hs₀pred, hmin, ?_⟩
      rw [hch, hf]
      dsimp only
      have hcond : 0 < (c : Int) ∧ ¬ (c : Int) ∈ sizes := ⟨by omega, hnotmem⟩
      rw [if_pos hcond]

/-- Witness for claim C3 (amended) at sizes `[2, 5]`, upper bound `6`. -/
theorem claim_C3_witness :
    (List.Chain' (fun x y => x ≤ y) [(2 : Int), 5] ∧
     (∀ s ∈ [(2 : Int), 5], 0 < s) ∧
     (∀ s ∈ [(2 : Int), 5], s ≤ ((6 : Nat) : Int) + 1)) ∧
    (∃ t, pre_compute_waste_for_content [2, 5] 6 = Except.ok t ∧ t.length = 6 + 1) := by
  have hch : List.Chain' (fun x y => x ≤ y) [(2 : Int), 5] :=
    List.Chain.cons (by decide) List.Chain.nil
  refine ⟨⟨hch, by decide, by decide⟩, ?_⟩
  obtain ⟨t, ht, hlen, _⟩ := claim_C3_amended [2, 5] 6 hch (by decide) (by decide)
  exact ⟨t, ht, hlen⟩

/-- Claim C8: a size list containing a descending adjacent pair never produces a
table — the run surfaces an error (`sys.exit(1)` at the pair, modelled as
`notSorted`, or an earlier `IndexError`); it never returns a table. -/
theorem claim_C8 (sizes : List Int) (ub : Nat) (l r : List Int) (a b : Int)
    (hshape : sizes = l ++ a :: b :: r) (hdesc : b < a) :
    ∃ e, pre_compute_waste_for_content sizes ub = Except.error e := by
  cases hres : pre_compute_waste_for_content sizes ub with
  | error e => exact ⟨e, rfl⟩
  | ok t =>
    exfalso
    have hchain : List.Chain (· ≤ ·) 0 sizes := wasteLoop_ok_chain sizes 0 _ t hres
    rw [hshape] at hchain
    have hsplit := (List.chain_split.mp hchain).2
    rw [List.chain_cons] at hsplit
    exact absurd hsplit.1 (not_le.mpr hdesc)

/-- Witness for claim C8 at the spec's example `slab_sizes = [50, 30]`. -/
theorem claim_C8_witness :
    ([(50 : Int), 30] = ([] : List Int) ++ 50 :: 30 :: ([] : List Int) ∧ (30 : Int) < 50) ∧
    ∃ e, pre_compute_waste_for_content [50, 30] 100 = Except.error e :=
  ⟨⟨rfl, by decide⟩, claim_C8 [50, 30] 100 [] [] 50 30 rfl (by decide)⟩

/-- Claim C10 is false as stated: `[5, 5]` is non-strictly ascending with an
adjacent repeated value, yet with upper bound `2` construction does not succeed —
the write loop runs past the end of `[0] * 3` and raises `IndexError`. -/
theorem claim_C10_false :
    pre_compute_waste_for_content [5, 5] 2 = Except.error BuildError.indexError := by decide

/-- Claim C10 (amended): for a non-strictly ascending positive size list with a
repeated adjacent value, *all of whose sizes are at most `upper_bound + 1`*,
construction succeeds without error, and the duplicated size contributes no
table entries: the result is the very table built from the list with the
duplicate removed. -/
theorem claim_C10_amended (l r : List Int) (a : Int) (ub : Nat)
    (hsort : List.Chain' (· ≤ ·) (l ++ a :: a :: r))
    (hpos : ∀ s ∈ l ++ a :: a :: r, 0 < s)
    (hbound : ∀ s ∈ l ++ a :: a :: r, s ≤ (ub : Int) + 1) :
    ∃ t, pre_compute_waste_for_content (l ++ a :: a :: r) ub = Except.ok t ∧
      pre_compute_waste_for_content (l ++ a :: r) ub = Except.ok t := by
  have hchain := chain_zero_of_pos _ hsort hpos
  obtain ⟨t, hok, _, _⟩ :=
    wasteLoop_char (l ++ a :: a :: r) 0 (List.replicate (ub + 1) 0) hchain (le_refl 0)
      (fun s hs => by rw [List.length_replicate]; have h1 := hbound s hs; omega)
  refine ⟨t, hok, ?_⟩
  rw [← pre_compute_dup l r a ub]
  exact hok

/-- Witness for claim C10 (amended) at sizes `[5, 5]`, upper bound `4`. -/
theorem claim_C10_witness :
    (List.Chain' (fun x y => x ≤ y) (([] : List Int) ++ 5 :: 5 :: ([] : List Int)) ∧
     (∀ s ∈ ([] : List Int) ++ 5 :: 5 :: ([] : List Int), 0 < s) ∧
     (∀ s ∈ ([] : List Int) ++ 5 :: 5 :: ([] : List Int), s ≤ ((4 : Nat) : Int) + 1)) ∧
    ∃ t, pre_compute_waste_for_content (([] : List Int) ++ 5 :: 5 :: ([] : List Int)) 4 =
           Except.ok t ∧
         pre_compute_waste_for_content (([] : List Int) ++ 5 :: ([] : List Int)) 4 =
           Except.ok t := by
  have hch : List.Chain' (fun x y => x ≤ y) (([] : List Int) ++ 5 :: 5 :: ([] : List Int)) :=
    List.Chain.cons (by decide) List.Chain.nil
  exact ⟨⟨hch, by decide, by decide⟩, claim_C10_amended [] [] 5 4 hch (by decide) (by decide)⟩

/-- Splitting the per-slab penalty sum of the evaluator loop into its color and
capacity components. -/
theorem sum_if_add_split (cand : List (List Nat)) (f g : List Nat → Int) :
    (cand.map (fun s => if s = [] then 0 else f s + g s)).sum =
      (cand.map (fun s => if s = [] then 0 else f s)).sum +
      (cand.map (fun s => if s = [] then 0 else g s)).sum := by
  induction cand with
  | nil => simp
  | cons s rest ih =>
    simp only [List.map_cons, List.sum_cons, ih]
    by_cases hs : s = []
    · rw [if_pos hs, if_pos hs, if_pos hs]
      ring
    · rw [if_neg hs, if_neg hs, if_neg hs]
      ring

/-- The evaluator's total decomposes into the waste sum, the per-slab color and
capacity penalty sums, and the flat coverage penalty. -/
theorem evaluate_decomp (st : SteelMillSlabDesignProblem) (cand : List (List Nat)) :
    evaluate_solution st cand =
      (cand.map (fun s => if s = [] then 0 else slabWaste st s)).sum +
      (cand.map (fun s => if s = [] then 0 else slabColorPenalty st s)).sum +
      (cand.map (fun s => if s = [] then 0 else slabOverflowPenalty st s)).sum +
      (if coverageOk st cand then 0 else PENALTY_UNIT) := by
  unfold evaluate_solution
  rw [sum_if_add_split cand (slabColorPenalty st) (slabOverflowPenalty st)]
  ring

/-- Reading any position of a list of non-negative values (with default 0) is
non-negative. -/
theorem getD_nonneg {l : List Int} (hq : ∀ q ∈ l, 0 ≤ q) (i : Nat) : 0 ≤ l.getD i 0 := by
  rw [List.getD_eq_getElem?_getD]
  cases h : l[i]? with
  | none => simp
  | some v =>
    simp only [Option.getD_some]
    exact hq v (List.getElem?_mem h)

/-- Summing the quantity lookups over all indices `0 .. len - 1` gives the sum
of the quantity list itself. -/
theorem sum_getD_range :
    ∀ (l : List Int), ((List.range l.length).map (fun i => l.getD i 0)).sum = l.sum := by
  intro l
  induction l with
  | nil => rfl
  | cons x xs ih =>
    rw [List.length_cons, List.range_succ_eq_map, List.map_cons, List.map_map, List.sum_cons,
      List.getD_cons_zero,
      show ((fun i => (x :: xs).getD i 0) ∘ Nat.succ) = (fun i => xs.getD i 0) from
        funext (fun i => rfl),
      ih, List.sum_cons]

/-- A slab of a candidate whose flattened index list is a sub-permutation of
`range nb_orders` has content at most the total of all order quantities. -/
theorem slabContent_le (st : SteelMillSlabDesignProblem) (cand : List (List Nat))
    (slab : List Nat) (hmem : slab ∈ cand)
    (hsub : List.Subperm cand.flatten (List.range st.nb_orders))
    (hq : ∀ q ∈ st.quantities_data, 0 ≤ q)
    (hlen : st.quantities_data.length = st.nb_orders) :
    slabContent st slab ≤ st.quantities_data.sum := by
  have h1 : List.Subperm slab (List.range st.nb_orders) :=
    (List.sublist_flatten_of_mem hmem).subperm.trans hsub
  obtain ⟨l, hp, hs⟩ := h1
  have hpm := hp.map (fun i => st.quantities_data.getD i 0)
  have hsm := hs.map (fun i => st.quantities_data.getD i 0)
  have hle : ((l.map (fun i => st.quantities_data.getD i 0)).sum : Int) ≤
      (((List.range st.nb_orders).map (fun i => st.quantities_data.getD i 0)).sum : Int) := by
    apply List.Sublist.sum_le_sum hsm
    intro a ha
    obtain ⟨i, _, rfl⟩ := List.mem_map.mp ha
    exact getD_nonneg hq i
  have hr : ((List.range st.nb_orders).map (fun i => st.quantities_data.getD i 0)).sum =
      st.quantities_data.sum := by
    rw [← hlen]
    exact sum_getD_range _
  unfold slabContent
  rw [← hpm.sum_eq, ← hr]
  exact hle

/-- A candidate whose flattened index list is a permutation of
`range nb_orders` passes the evaluator's set-equality coverage test. -/
theorem coverageOk_of_perm (st : SteelMillSlabDesignProblem) (cand : List (List Nat))
    (hperm : cand.flatten.Perm (List.range st.nb_orders)) :
    coverageOk st cand = true := by
  unfold coverageOk
  rw [Bool.and_eq_true]
  constructor
  · rw [List.all_eq_true]
    intro i hi
    rw [decide_eq_true_eq]
    exact hperm.mem_iff.mpr hi
  · rw [List.all_eq_true]
    intro i hi
    rw [decide_eq_true_eq]
    exact List.mem_range.mp (hperm.mem_iff.mp hi)

/-- Claim C1 is false as stated: on the spec's concrete scenario the evaluator
does not return 9,999,990. -/
theorem claim_C1_false : evaluate_solution st_C1 [[0, 1]] ≠ 9999990 := by decide

/-- Claim C1 (amended): on slab sizes `[100]`, orders `[(60,1), (50,1)]` and
candidate `[[0, 1]]`, the content is 110 > `max_size` = 100, giving an overflow
penalty of `1,000,000 × 10`; but the table has length `sum_size_orders + 1 = 111`,
so content 110 is read *from the table* (entry 0 — past the last size, never
written) and the negative fallback `100 - 110` is not reached; the total is
exactly 10,000,000. -/
theorem claim_C1_amended :
    evaluate_solution st_C1 [[0, 1]] = 10000000 ∧
    slabContent st_C1 [0, 1] = 110 ∧
    slabOverflowPenalty st_C1 [0, 1] = PENALTY_UNIT * 10 ∧
    st_C1.waste_for_content.length = 111 ∧
    slabWaste st_C1 [0, 1] = 0 :=
  ⟨by decide, by decide, by decide, by decide, by decide⟩

/-- Claim C2 names a real defect: on `st_C2` the candidate `[[0], [0, 1]]`
covers both orders but repeats order 0, yet the evaluator's `set`-based test
(`set(orders) != set(range(nb_orders))`) cannot see the duplication and adds no
coverage penalty — the result is plain waste 5, not `base + 1,000,000` as the
claim (and the source's own comment “all orders must appear exactly once”)
requires. -/
theorem claim_C2_code_eval :
    evaluate_solution st_C2 [[0], [0, 1]] = 5 ∧
    coverageOk st_C2 [[0], [0, 1]] = true ∧
    ¬ ([[0], [0, 1]] : List (List Nat)).flatten.Nodup :=
  ⟨by decide, by decide, by decide⟩

/-- Claim C4: a candidate covering every order exactly once, with every slab
within capacity and within the 2-color limit, is scored as exactly the sum of
the waste-table entries of the nonempty slabs, with no penalty of any kind. -/
theorem claim_C4 (st : SteelMillSlabDesignProblem) (cand : List (List Nat))
    (hq : ∀ q ∈ st.quantities_data, 0 ≤ q)
    (hlen : st.quantities_data.length = st.nb_orders)
    (hsum : st.sum_size_orders = st.quantities_data.sum)
    (htab : st.waste_for_content.length = st.sum_size_orders.toNat + 1)
    (hnb : st.nb_colors_max_slab = 2)
    (hperm : cand.flatten.Perm (List.range st.nb_orders))
    (hcolors : ∀ slab ∈ cand, (slabColors st slab).length ≤ 2)
    (hcap : ∀ slab ∈ cand, slabContent st slab ≤ st.max_size) :
    evaluate_solution st cand =
      (cand.map (fun slab =>
        if slab = [] then 0
        else st.waste_for_content.getD (slabContent st slab).toNat 0)).sum := by
  rw [evaluate_decomp]
  have hq0 : 0 ≤ st.quantities_data.sum := List.sum_nonneg hq
  have hcov : coverageOk st cand = true := coverageOk_of_perm st cand hperm
  have hcov0 : (if coverageOk st cand then (0 : Int) else PENALTY_UNIT) = 0 := by
    rw [hcov]
    rfl
  have hcolor0 : (cand.map (fun s => if s = [] then 0 else slabColorPenalty st s)).sum = 0 := by
    apply List.sum_eq_zero
    intro x hx
    obtain ⟨s, hs, rfl⟩ := List.mem_map.mp hx
    by_cases hse : s = []
    · rw [if_pos hse]
    · rw [if_neg hse]
      unfold slabColorPenalty
      rw [if_neg (by have := hcolors s hs; omega)]
  have hover0 : (cand.map (fun s => if s = [] then 0 else slabOverflowPenalty st s)).sum = 0 := by
    apply List.sum_eq_zero
    intro x hx
    obtain ⟨s, hs, rfl⟩ := List.mem_map.mp hx
    by_cases hse : s = []
    · rw [if_pos hse]
    · rw [if_neg hse]
      unfold slabOverflowPenalty
      rw [if_neg (not_lt.mpr (hcap s hs))]
  have hwaste : (cand.map (fun s => if s = [] then 0 else slabWaste st s)) =
      (cand.map (fun s =>
        if s = [] then 0 else st.waste_for_content.getD (slabContent st s).toNat 0)) := by
    apply List.map_congr_left
    intro s hs
    by_cases hse : s = []
    · rw [if_pos hse, if_pos hse]
    · rw [if_neg hse, if_neg hse]
      have hcle : slabContent st s ≤ st.quantities_data.sum :=
        slabContent_le st cand s hs hperm.subperm hq hlen
      have hbnd : slabContent st s < (st.waste_for_content.length : Int) := by
        rw [htab, hsum]
        omega
      unfold slabWaste
      rw [if_pos hbnd]
  rw [hcov0, hcolor0, hover0, hwaste]
  ring

/-- Witness for claim C4: on `st_C2`, the feasible candidate `[[0], [1]]` scores
exactly `table[6] + table[5] = 5 + 0`. -/
theorem claim_C4_witness :
    ((∀ q ∈ st_C2.quantities_data, (0 : Int) ≤ q) ∧
     st_C2.quantities_data.length = st_C2.nb_orders ∧
     st_C2.sum_size_orders = st_C2.quantities_data.sum ∧
     st_C2.waste_for_content.length = st_C2.sum_size_orders.toNat + 1 ∧
     st_C2.nb_colors_max_slab = 2 ∧
     ([[0], [1]] : List (List Nat)).flatten.Perm (List.range st_C2.nb_orders) ∧
     (∀ slab ∈ ([[0], [1]] : List (List Nat)), (slabColors st_C2 slab).length ≤ 2) ∧
     (∀ slab ∈ ([[0], [1]] : List (List Nat)), slabContent st_C2 slab ≤ st_C2.max_size)) ∧
    evaluate_solution st_C2 [[0], [1]] =
      (([[0], [1]] : List (List Nat)).map (fun slab =>
        if slab = [] then 0
        else st_C2.waste_for_content.getD (slabContent st_C2 slab).toNat 0)).sum :=
  ⟨⟨by decide, by decide, by decide, by decide, by decide, by decide, by decide, by decide⟩,
   claim_C4 st_C2 [[0], [1]] (by decide) (by decide) (by decide) (by decide) (by decide)
     (by decide) (by decide) (by decide)⟩

/-- Claim C5: a slab whose content exceeds `max_size` contributes an overflow
penalty of exactly `PENALTY_UNIT × (content - max_size)` to the evaluator's
total (first conjunct: the contribution of that slab in the per-slab penalty
sum; second conjunct: the total is the sum of these per-slab contributions). -/
theorem claim_C5 (st : SteelMillSlabDesignProblem) (cand : List (List Nat)) (slab : List Nat)
    (hmem : slab ∈ cand) (hmax : 0 ≤ st.max_size)
    (hover : st.max_size < slabContent st slab) :
    slabOverflowPenalty st slab = PENALTY_UNIT * (slabContent st slab - st.max_size) ∧
    ∃ l r, cand = l ++ slab :: r ∧
      evaluate_solution st cand =
        (cand.map (fun s => if s = [] then 0 else slabWaste st s)).sum +
        (cand.map (fun s => if s = [] then 0 else slabColorPenalty st s)).sum +
        ((l.map (fun s => if s = [] then 0 else slabOverflowPenalty st s)).sum +
          PENALTY_UNIT * (slabContent st slab - st.max_size) +
          (r.map (fun s => if s = [] then 0 else slabOverflowPenalty st s)).sum) +
        (if coverageOk st cand then 0 else PENALTY_UNIT) := by
  have hne : slab ≠ [] := by
    intro he
    rw [he] at hover
    unfold slabContent at hover
    simp at hover
    omega
  have hterm : slabOverflowPenalty st slab = PENALTY_UNIT * (slabContent st slab - st.max_size) := by
    unfold slabOverflowPenalty
    rw [if_pos hover]
  obtain ⟨l, r, rfl⟩ := List.append_of_mem hmem
  refine ⟨hterm, l, r, rfl, ?_⟩
  rw [evaluate_decomp]
  rw [show ((l ++ slab :: r).map (fun s => if s = [] then 0 else slabOverflowPenalty st s)).sum =
      (l.map (fun s => if s = [] then 0 else slabOverflowPenalty st s)).sum +
        PENALTY_UNIT * (slabContent st slab - st.max_size) +
        (r.map (fun s => if s = [] then 0 else slabOverflowPenalty st s)).sum from ?_]
  rw [List.map_append, List.sum_append, List.map_cons, List.sum_cons, if_neg hne, hterm]
  ring

/-- Witness for claim C5 on the C1 scenario: content 110 > 100 contributes
exactly `1,000,000 × 10`. -/
theorem claim_C5_witness :
    (([0, 1] : List Nat) ∈ ([[0, 1]] : List (List Nat)) ∧ (0 : Int) ≤ st_C1.max_size ∧
     st_C1.max_size < slabContent st_C1 [0, 1]) ∧
    (slabOverflowPenalty st_C1 [0, 1] =
      PENALTY_UNIT * (slabContent st_C1 [0, 1] - st_C1.max_size) ∧
     ∃ l r, ([[0, 1]] : List (List Nat)) = l ++ [0, 1] :: r ∧
      evaluate_solution st_C1 [[0, 1]] =
        (([[0, 1]] : List (List Nat)).map
          (fun s => if s = [] then 0 else slabWaste st_C1 s)).sum +
        (([[0, 1]] : List (List Nat)).map
          (fun s => if s = [] then 0 else slabColorPenalty st_C1 s)).sum +
        ((l.map (fun s => if s = [] then 0 else slabOverflowPenalty st_C1 s)).sum +
          PENALTY_UNIT * (slabContent st_C1 [0, 1] - st_C1.max_size) +
          (r.map (fun s => if s = [] then 0 else slabOverflowPenalty st_C1 s)).sum) +
        (if coverageOk st_C1 [[0, 1]] then 0 else PENALTY_UNIT)) :=
  ⟨⟨by decide, by decide, by decide⟩,
   claim_C5 st_C1 [[0, 1]] [0, 1] (by decide) (by decide) (by decide)⟩

/-- Claim C6: a slab spanning more than 2 distinct colors contributes a color
penalty of exactly `PENALTY_UNIT × (distinct_color_count - 2)`; with 3 distinct
colors that is exactly 1,000,000. -/
theorem claim_C6 (st : SteelMillSlabDesignProblem) (cand : List (List Nat)) (slab : List Nat)
    (hmem : slab ∈ cand) (hnb : st.nb_colors_max_slab = 2)
    (hcol : 2 < (slabColors st slab).length) :
    slabColorPenalty st slab = PENALTY_UNIT * (((slabColors st slab).length : Int) - 2) ∧
    ((slabColors st slab).length = 3 → slabColorPenalty st slab = 1000000) ∧
    ∃ l r, cand = l ++ slab :: r ∧
      evaluate_solution st cand =
        (cand.map (fun s => if s = [] then 0 else slabWaste st s)).sum +
        ((l.map (fun s => if s = [] then 0 else slabColorPenalty st s)).sum +
          PENALTY_UNIT * (((slabColors st slab).length : Int) - 2) +
          (r.map (fun s => if s = [] then 0 else slabColorPenalty st s)).sum) +
        (cand.map (fun s => if s = [] then 0 else slabOverflowPenalty st s)).sum +
        (if coverageOk st cand then 0 else PENALTY_UNIT) := by
  have hne : slab ≠ [] := by
    intro he
    rw [he] at hcol
    simp [slabColors] at hcol
  have h1 : slabColorPenalty st slab =
      PENALTY_UNIT * (((slabColors st slab).length : Int) - 2) := by
    unfold slabColorPenalty
    rw [hnb, if_pos hcol]
    push_cast
    ring
  refine ⟨h1, ?_, ?_⟩
  · intro h3
    rw [h1, h3]
    simp [PENALTY_UNIT]
  · obtain ⟨l, r, rfl⟩ := List.append_of_mem hmem
    refine ⟨l, r, rfl, ?_⟩
    rw [evaluate_decomp]
    rw [show ((l ++ slab :: r).map (fun s => if s = [] then 0 else slabColorPenalty st s)).sum =
        (l.map (fun s => if s = [] then 0 else slabColorPenalty st s)).sum +
          PENALTY_UNIT * (((slabColors st slab).length : Int) - 2) +
          (r.map (fun s => if s = [] then 0 else slabColorPenalty st s)).sum from ?_]
    rw [List.map_append, List.sum_append, List.map_cons, List.sum_cons, if_neg hne, h1]
    ring

/-- Witness for claim C6 on `st_C6`: the slab `[0, 1, 2]` holds colors
`{1, 2, 3}` and contributes exactly 1,000,000. -/
theorem claim_C6_witness :
    (([0, 1, 2] : List Nat) ∈ ([[0, 1, 2]] : List (List Nat)) ∧
     st_C6.nb_colors_max_slab = 2 ∧ 2 < (slabColors st_C6 [0, 1, 2]).length) ∧
    (slabColorPenalty st_C6 [0, 1, 2] =
      PENALTY_UNIT * (((slabColors st_C6 [0, 1, 2]).length : Int) - 2) ∧
     ((slabColors st_C6 [0, 1, 2]).length = 3 →
       slabColorPenalty st_C6 [0, 1, 2] = 1000000) ∧
     ∃ l r, ([[0, 1, 2]] : List (List Nat)) = l ++ [0, 1, 2] :: r ∧
      evaluate_solution st_C6 [[0, 1, 2]] =
        (([[0, 1, 2]] : List (List Nat)).map
          (fun s => if s = [] then 0 else slabWaste st_C6 s)).sum +
        ((l.map (fun s => if s = [] then 0 else slabColorPenalty st_C6 s)).sum +
          PENALTY_UNIT * (((slabColors st_C6 [0, 1, 2]).length : Int) - 2) +
          (r.map (fun s => if s = [] then 0 else slabColorPenalty st_C6 s)).sum) +
        (([[0, 1, 2]] : List (List Nat)).map
          (fun s => if s = [] then 0 else slabOverflowPenalty st_C6 s)).sum +
        (if coverageOk st_C6 [[0, 1, 2]] then 0 else PENALTY_UNIT)) :=
  ⟨⟨by decide, by decide, by decide⟩,
   claim_C6 st_C6 [[0, 1, 2]] [0, 1, 2] (by decide) (by decide) (by decide)⟩

/-- Claim C7: the coverage penalty is magnitude-insensitive — every candidate
failing the set-equality coverage test gets exactly one flat `PENALTY_UNIT`
added on top of its waste and per-slab penalties, however many orders are
missing. -/
theorem claim_C7 (st : SteelMillSlabDesignProblem) (cand : List (List Nat))
    (hcov : coverageOk st cand = false) :
    evaluate_solution st cand =
      (cand.map (fun s => if s = [] then 0 else slabWaste st s)).sum +
      (cand.map (fun s => if s = [] then 0 else slabColorPenalty st s)).sum +
      (cand.map (fun s => if s = [] then 0 else slabOverflowPenalty st s)).sum +
      PENALTY_UNIT := by
  rw [evaluate_decomp, hcov]
  rfl

/-- Witness for claim C7: `[[0]]` on `st_C1` misses order 1 and is charged the
single flat unit. -/
theorem claim_C7_witness :
    coverageOk st_C1 [[0]] = false ∧
    evaluate_solution st_C1 [[0]] =
      (([[0]] : List (List Nat)).map (fun s => if s = [] then 0 else slabWaste st_C1 s)).sum +
      (([[0]] : List (List Nat)).map
        (fun s => if s = [] then 0 else slabColorPenalty st_C1 s)).sum +
      (([[0]] : List (List Nat)).map
        (fun s => if s = [] then 0 else slabOverflowPenalty st_C1 s)).sum +
      PENALTY_UNIT :=
  ⟨by decide, claim_C7 st_C1 [[0]] (by decide)⟩

/-- Claim C9: a candidate using only in-range order indices, with no index
repeated anywhere, has every slab content at most `sum_size_orders`; the waste
lookup is therefore in-bounds and the negative fallback branch is not taken. -/
theorem claim_C9 (st : SteelMillSlabDesignProblem) (cand : List (List Nat))
    (hidx : ∀ i ∈ cand.flatten, i < st.nb_orders)
    (hnodup : cand.flatten.Nodup)
    (hq : ∀ q ∈ st.quantities_data, 0 ≤ q)
    (hlen : st.quantities_data.length = st.nb_orders)
    (hsum : st.sum_size_orders = st.quantities_data.sum)
    (htab : st.waste_for_content.length = st.sum_size_orders.toNat + 1) :
    ∀ slab ∈ cand,
      slabContent st slab ≤ st.sum_size_orders ∧
      slabContent st slab < (st.waste_for_content.length : Int) ∧
      slabWaste st slab = st.waste_for_content.getD (slabContent st slab).toNat 0 := by
  intro slab hmem
  have hsub : List.Subperm cand.flatten (List.range st.nb_orders) :=
    List.Nodup.subperm hnodup (fun i hi => List.mem_range.mpr (hidx i hi))
  have hcle := slabContent_le st cand slab hmem hsub hq hlen
  have hq0 : 0 ≤ st.quantities_data.sum := List.sum_nonneg hq
  have hbnd : slabContent st slab < (st.waste_for_content.length : Int) := by
    rw [htab, hsum]
    omega
  refine ⟨by rw [hsum]; exact hcle, hbnd, ?_⟩
  unfold slabWaste
  rw [if_pos hbnd]

/-- Witness for claim C9 on `st_C2` with the duplicate-free candidate
`[[0], [1]]`, instantiated at the slab `[0]`. -/
theorem claim_C9_witness :
    ((∀ i ∈ ([[0], [1]] : List (List Nat)).flatten, i < st_C2.nb_orders) ∧
     ([[0], [1]] : List (List Nat)).flatten.Nodup ∧
     (∀ q ∈ st_C2.quantities_data, (0 : Int) ≤ q) ∧
     st_C2.quantities_data.length = st_C2.nb_orders ∧
     st_C2.sum_size_orders = st_C2.quantities_data.sum ∧
     st_C2.waste_for_content.length = st_C2.sum_size_orders.toNat + 1) ∧
    (slabContent st_C2 [0] ≤ st_C2.sum_size_orders ∧
     slabContent st_C2 [0] < (st_C2.waste_for_content.length : Int) ∧
     slabWaste st_C2 [0] = st_C2.waste_for_content.getD (slabContent st_C2 [0]).toNat 0) :=
  ⟨⟨by decide, by decide, by decide, by decide, by decide, by decide⟩,
   claim_C9 st_C2 [[0], [1]] (by decide) (by decide) (by decide) (by decide) (by decide)
     (by decide) [0] (by decide)⟩
